import Mathlib

/-
Verification of the SD-card data reader of this repository, a shallow
embedding of the two source files in `SDCard Data Reader`:

  * `bitvector.py`   — the `BitVector` class: a list of bit values with an
    HDL-style `downto` orientation, slicing, and integer conversion.
  * `sdcard_data_reader.py` — the `main` loop: a two-state machine that
    detects signal edges in a sampled (clock, command, data) stream,
    accumulates command-line bits into a `BitVector`, and classifies each
    completed frame as a command or one of the response formats.

Python-level failures (ValueError from `int(s, 2)`, a NameError from reading
`clock_freq` before its first assignment) are modelled with `Except`.
The source's floating point clock-frequency value is modelled as an exact
unreduced fraction (`PRat`); the decoder only ever compares it for equality
against the previously reported value, and no other part of the program
reads it.
-/

set_option linter.unusedVariables false
set_option maxRecDepth 100000

namespace SDCardReader

/-- The Python exceptions that the modelled code paths can raise. -/
inductive PyError where
  | valueError
  | nameError
  deriving DecidableEq

/-- `BitVector` from bitvector.py: the underlying list `_vlist` together with
the `_downto` orientation flag. -/
structure BitVector where
  vlist : List Nat
  downto : Bool
  deriving DecidableEq

/-- bitvector.py `validate`: only 0 and 1 are legal bit values; anything else
raises a ValueError. -/
def BitVector.validate (bit : Nat) : Except PyError Unit :=
  if bit = 0 ∨ bit = 1 then Except.ok () else Except.error PyError.valueError

/-- bitvector.py `__init__`: each element of the initial list is validated. -/
def BitVector.ofList (vector_list : List Nat) (downto_val : Bool) :
    Except PyError BitVector :=
  if ∀ b ∈ vector_list, b = 0 ∨ b = 1 then Except.ok ⟨vector_list, downto_val⟩
  else Except.error PyError.valueError

/-- bitvector.py `append`: appends a bit on the right-hand side.  The source
does not call `validate` here, so any value is stored. -/
def BitVector.append (v : BitVector) (bit : Nat) : BitVector :=
  ⟨v.vlist ++ [bit], v.downto⟩

/-- The decimal digit characters of `n`, as Python string formatting of an
integer produces them. -/
def digitsOf (n : Nat) : List Char := (Nat.repr n).toList

/-- bitvector.py `binstr`: the concatenation of the decimal renderings of the
list elements. -/
def binChars : List Nat → List Char
  | [] => []
  | b :: rest => digitsOf b ++ binChars rest

/-- The `binstr` property on a vector. -/
def BitVector.binstr (v : BitVector) : List Char := binChars v.vlist

/-- The accumulator loop of Python `int(s, 2)`: reads base-2 digits most
significant first and fails on any character that is not 0 or 1. -/
def parseBinAux : List Char → Nat → Option Nat
  | [], acc => some acc
  | c :: cs, acc =>
    if c = '0' then parseBinAux cs (2 * acc)
    else if c = '1' then parseBinAux cs (2 * acc + 1)
    else none

/-- Python `int(s, 2)`: raises on the empty string, otherwise parses base 2. -/
def parseBin (s : List Char) : Option Nat :=
  match s with
  | [] => none
  | _ => parseBinAux s 0

/-- bitvector.py `value`: `int(self.binstr, 2)`; `none` models the raise. -/
def BitVector.value (v : BitVector) : Option Nat := parseBin v.binstr

/-- bitvector.py `hexstr`: `hex(self.value)`, failing whenever `value` does. -/
def BitVector.hexstr (v : BitVector) : Option (List Char) :=
  v.value.map (fun n => '0' :: 'x' :: Nat.toDigits 16 n)

/-- bitvector.py `length`: `len(self._vlist)`. -/
def BitVector.length (v : BitVector) : Nat := v.vlist.length

/-- bitvector.py `from_int`: the binary digit string of `value` mapped back to
a bit list.  For positive `n` these are the base-2 digits most significant
first with no leading zeros; `0` formats as the single digit 0. -/
def BitVector.from_int (value : Nat) : BitVector :=
  if value = 0 then ⟨[0], true⟩ else ⟨(Nat.digits 2 value).reverse, true⟩

/-- Python list index normalisation for a slice bound (step 1): a negative
index counts from the end of the list, then both bounds clamp to the list. -/
def pyIdx (len : Nat) (i : Int) : Nat :=
  if i < 0 then (i + len).toNat else min i.toNat len

/-- Python list slicing `l[i:j]` with step 1. -/
def pySlice (l : List Nat) (i j : Int) : List Nat :=
  (l.take (pyIdx l.length j)).drop (pyIdx l.length i)

/-- bitvector.py `slice`: under `downto` the bounds are reflected through the
list length (`vstart`, `vlen`, `vstop` in the source); otherwise the Python
slice `start : stop + 1` is taken directly.  The sublist is returned through
the `BitVector` constructor, which validates every element, so slicing a
vector that holds a non-bit element raises ValueError. -/
def BitVector.slice (v : BitVector) (start stop : Int) :
    Except PyError BitVector :=
  if v.downto then
    BitVector.ofList
      (pySlice v.vlist ((v.length : Int) - start - 1)
        (((v.length : Int) - start - 1) + (start - stop + 1))) v.downto
  else
    BitVector.ofList (pySlice v.vlist start (stop + 1)) v.downto

/-- The `States` enumeration of sdcard_data_reader.py. -/
inductive States where
  | idle
  | acquire
  deriving DecidableEq

/-- One CSV row, pre-parsed as by lines 53-55 of the source: `clk`, `cmd` and
the hexadecimal `data` nibble (the data column is never read afterwards). -/
structure Sample where
  clk : Nat
  cmd : Nat
  data : Nat
  deriving DecidableEq

/-- An exact unreduced fraction standing in for a Python float.  The decoder
only multiplies, divides and equality-compares these values. -/
structure PRat where
  num : Int
  den : Int
  deriving DecidableEq

/-- Fraction multiplication. -/
def PRat.mul (a b : PRat) : PRat := ⟨a.num * b.num, a.den * b.den⟩

/-- Fraction division. -/
def PRat.div (a b : PRat) : PRat := ⟨a.num * b.den, a.den * b.num⟩

/-- Equality of the represented rational values (cross multiplication). -/
def PRat.same (a b : PRat) : Bool := a.num * b.den == b.num * a.den

/-- The frame records the decoder prints, one constructor per print branch of
lines 118-200: a command (with the ACMD presentation flag from the
`current_cmd_idx != 55` test) or one of the response formats. -/
inductive Frame where
  | command (acmd : Bool) (raw sttx cmdIdx arg crc : Nat)
  | r1 (raw sttx cmdIdx arg crc : Nat)
  | r3 (raw sttx cmdIdx arg crc : Nat)
  | r6 (raw sttx cmdIdx rca status crc : Nat)
  | r2 (raw sttx cmdIdx cid : Nat)
  deriving DecidableEq

/-- Response frames (card to host), as opposed to command frames. -/
def Frame.isResponse : Frame → Bool
  | Frame.command _ _ _ _ _ _ => false
  | _ => true

/-- The mutable locals of `main` that survive from one loop iteration to the
next.  `clockFreq = none` models the Python name `clock_freq` not being bound
yet; reading it then raises NameError. -/
structure DState where
  currentState : States
  lastClk : Nat
  lastCmd : Nat
  currentCmdIdx : Nat
  bitCount : Nat
  vector : BitVector
  lineCount : Nat
  lastClkEdgeLine : Nat
  clockFreq : Option PRat
  lastFreq : PRat
  deriving DecidableEq

/-- The initialisation block of `main`, lines 42-51. -/
def initState : DState :=
  { currentState := States.idle, lastClk := 0, lastCmd := 1, currentCmdIdx := 0,
    bitCount := 0, vector := ⟨[], true⟩, lineCount := 2, lastClkEdgeLine := 0,
    clockFreq := none, lastFreq := ⟨0, 1⟩ }

/-- Lines 110-113: the frame length implied by the previously decoded command
index — 136 bits after a command 2, 9 or 10, else 48. -/
def target (current_cmd_idx : Nat) : Nat :=
  if current_cmd_idx = 2 ∨ current_cmd_idx = 9 ∨ current_cmd_idx = 10 then 136
  else 48

/-- Lines 115-200: classification of a completed vector.  Returns the printed
frame and the value of `current_cmd_idx` after the branch.  Each slice is
taken in source order and can raise at construction (its sublist is
validated); every `.value` read that the prints and dispatch tests perform is
forced here, a failed read being the propagated ValueError. -/
def decodeFrame (max_bit : Nat) (current_cmd_idx : Nat) (vector : BitVector) :
    Except PyError (Frame × Nat) :=
  match vector.slice ((vector.length : Int) - 1) ((vector.length : Int) - 2) with
  | Except.error e => Except.error e
  | Except.ok start_txrx =>
    match start_txrx.value with
    | none => Except.error PyError.valueError
    | some stv =>
      if stv = 1 then
        match vector.slice 45 40 with
        | Except.error e => Except.error e
        | Except.ok cmd_idx =>
          match vector.slice 39 8 with
          | Except.error e => Except.error e
          | Except.ok argument =>
            match vector.slice 7 0 with
            | Except.error e => Except.error e
            | Except.ok crc7_stop =>
              match vector.value, cmd_idx.value, argument.value, crc7_stop.value with
              | some raw, some ci, some arg, some crc =>
                Except.ok
                  (Frame.command (current_cmd_idx == 55) raw stv ci arg crc, ci)
              | _, _, _, _ => Except.error PyError.valueError
      else
        if max_bit ≠ 136 then
          match vector.slice 45 40 with
          | Except.error e => Except.error e
          | Except.ok cmd_idx =>
            match vector.slice 39 8 with
            | Except.error e => Except.error e
            | Except.ok argument =>
              match vector.slice 7 0 with
              | Except.error e => Except.error e
              | Except.ok crc7_stop =>
                match cmd_idx.value with
                | none => Except.error PyError.valueError
                | some ci =>
                  if ci = 63 then
                    match vector.value, argument.value, crc7_stop.value with
                    | some raw, some arg, some crc =>
                      Except.ok (Frame.r3 raw stv ci arg crc, current_cmd_idx)
                    | _, _, _ => Except.error PyError.valueError
                  else if ci = 3 then
                    match vector.slice 39 24 with
                    | Except.error e => Except.error e
                    | Except.ok new_rca =>
                      match vector.slice 23 8 with
                      | Except.error e => Except.error e
                      | Except.ok card_status =>
                        match vector.value, new_rca.value, card_status.value,
                            crc7_stop.value with
                        | some raw, some rca, some cs, some crc =>
                          Except.ok
                            (Frame.r6 raw stv ci rca cs crc, current_cmd_idx)
                        | _, _, _, _ => Except.error PyError.valueError
                  else
                    match vector.value, argument.value, crc7_stop.value with
                    | some raw, some arg, some crc =>
                      Except.ok (Frame.r1 raw stv ci arg crc, current_cmd_idx)
                    | _, _, _ => Except.error PyError.valueError
        else
          match vector.slice 135 134 with
          | Except.error e => Except.error e
          | Except.ok start_tx =>
            match vector.slice 133 128 with
            | Except.error e => Except.error e
            | Except.ok cmd_idx =>
              match vector.slice 127 0 with
              | Except.error e => Except.error e
              | Except.ok cid_csr =>
                match vector.value, start_tx.value, cmd_idx.value,
                    cid_csr.value with
                | some raw, some st, some ci, some cid =>
                  Except.ok (Frame.r2 raw st ci cid, 0)
                | _, _, _, _ => Except.error PyError.valueError

/-- One iteration of the `for row in sddata` loop (lines 52-207): edge
detection, clock-rate estimation, the two-state machine, then the
end-of-iteration bookkeeping.  Emits at most one frame. -/
def step (sample_rate : PRat) (s : DState) (row : Sample) :
    Except PyError (DState × Option Frame) :=
  let clk := row.clk
  let cmd := row.cmd
  let rising_edge_clk := clk = 1 ∧ s.lastClk = 0
  let falling_edge_clk := clk = 0 ∧ s.lastClk = 1
  let rising_edge_cmd := cmd = 1 ∧ s.lastCmd = 0
  let falling_edge_cmd := cmd = 0 ∧ s.lastCmd = 1
  let clockPair :=
    if rising_edge_clk then
      let edge_to_edge : Int := (s.lineCount : Int) - (s.lastClkEdgeLine : Int)
      (some (PRat.div ⟨1, 1⟩
          (PRat.mul (PRat.mul ⟨edge_to_edge, 1⟩ sample_rate) ⟨1, 1000000000⟩)),
        s.lineCount)
    else (s.clockFreq, s.lastClkEdgeLine)
  match s.currentState with
  | States.idle =>
    if falling_edge_cmd then
      match clockPair.1 with
      | none => Except.error PyError.nameError
      | some f =>
        let lf := if PRat.same f s.lastFreq then s.lastFreq else f
        Except.ok
          ({ currentState := States.acquire,
             lastClk := clk,
             lastCmd := cmd,
             currentCmdIdx := s.currentCmdIdx,
             bitCount := 0,
             vector := ⟨[], true⟩,
             lineCount := s.lineCount + 1,
             lastClkEdgeLine := clockPair.2,
             clockFreq := clockPair.1,
             lastFreq := lf }, none)
    else
      Except.ok
        ({ s with
            lastClk := clk,
            lastCmd := cmd,
            bitCount := 0,
            lineCount := s.lineCount + 1,
            lastClkEdgeLine := clockPair.2,
            clockFreq := clockPair.1 }, none)
  | States.acquire =>
    let vector := if rising_edge_clk then s.vector.append cmd else s.vector
    let bit_count := if rising_edge_clk then s.bitCount + 1 else s.bitCount
    let max_bit := target s.currentCmdIdx
    if bit_count = max_bit then
      match decodeFrame max_bit s.currentCmdIdx vector with
      | Except.error e => Except.error e
      | Except.ok fr =>
        Except.ok
          ({ s with
              currentState := States.idle,
              lastClk := clk,
              lastCmd := cmd,
              currentCmdIdx := fr.2,
              bitCount := bit_count,
              vector := vector,
              lineCount := s.lineCount + 1,
              lastClkEdgeLine := clockPair.2,
              clockFreq := clockPair.1 }, some fr.1)
    else
      Except.ok
        ({ s with
            lastClk := clk,
            lastCmd := cmd,
            bitCount := bit_count,
            vector := vector,
            lineCount := s.lineCount + 1,
            lastClkEdgeLine := clockPair.2,
            clockFreq := clockPair.1 }, none)

/-- Runs the loop from a given state, collecting the emitted frames in
order.  An exception aborts the whole run, as in the source. -/
def runFrom (sample_rate : PRat) (s : DState) :
    List Sample → Except PyError (DState × List Frame)
  | [] => Except.ok (s, [])
  | row :: rest =>
    match step sample_rate s row with
    | Except.error e => Except.error e
    | Except.ok sOut =>
      match runFrom sample_rate sOut.1 rest with
      | Except.error e => Except.error e
      | Except.ok final =>
        Except.ok (final.1, (sOut.2.elim [] (fun f => [f])) ++ final.2)

/-- Runs the whole stream from the initial state of `main`. -/
def run (sample_rate : PRat) (rows : List Sample) :
    Except PyError (DState × List Frame) :=
  runFrom sample_rate initState rows

/-- The number a list of bits denotes read most significant bit first. -/
def natOfBits (l : List Nat) : Nat := l.foldl (fun a b => 2 * a + b) 0

/-- An idle-bus sample: clock low, command line at its rest state 1. -/
def idleSample : Sample := ⟨0, 1, 0⟩

/-- Two samples delivering one command-line bit: the clock returns low, then a
rising clock edge latches the bit. -/
def samplePair (b : Nat) : List Sample := [⟨0, b, 0⟩, ⟨1, b, 0⟩]

/-- The 48 bits of the end-to-end scenario frame: start and transfer bits 01,
command index 000110 (6), a 32-bit zero argument, and crc7 plus stop 00000001,
most significant bit first in arrival order. -/
def bitsC3 : List Nat :=
  [0, 1, 0, 0, 0, 1, 1, 0] ++ List.replicate 32 0 ++ [0, 0, 0, 0, 0, 0, 0, 1]

/-- The end-to-end scenario input: the command line idles high for several
samples, then one sample with a falling command edge (and a rising clock edge,
so a clock rate exists), then the 48 frame bits on rising clock edges. -/
def c3Samples : List Sample :=
  [idleSample, idleSample, idleSample, ⟨1, 0, 0⟩] ++ bitsC3.flatMap samplePair

/-- The truncation scenario input: a frame start as in the end-to-end scenario
but only 20 latched bits before the stream ends. -/
def c6Samples : List Sample :=
  [idleSample, idleSample, idleSample, ⟨1, 0, 0⟩] ++
    (List.replicate 20 0).flatMap samplePair

/-- The state one no-edge idle sample leads to from the initial state: only
the line counter advances. -/
def sIdleStep : DState := { initState with lineCount := 3 }

/-- A binary bit value formats as the single matching digit character. -/
theorem digitsOf_le_one {b : Nat} (hb : b ≤ 1) :
    digitsOf b = [if b = 1 then '1' else '0'] := by
  interval_cases b <;> decide

theorem parseBinAux_cons_zero (s : List Char) (acc : Nat) :
    parseBinAux ('0' :: s) acc = parseBinAux s (2 * acc) := rfl

theorem parseBinAux_cons_one (s : List Char) (acc : Nat) :
    parseBinAux ('1' :: s) acc = parseBinAux s (2 * acc + 1) := rfl

/-- On the rendering of a list of binary bits, the base-2 parse succeeds and
folds up the bits most significant first. -/
theorem parseBinAux_binChars (l : List Nat) (hb : ∀ b ∈ l, b ≤ 1) (acc : Nat) :
    parseBinAux (binChars l) acc =
      some (l.foldl (fun a b => 2 * a + b) acc) := by
  induction l generalizing acc with
  | nil => rfl
  | cons b rest ih =>
    have hb0 : b ≤ 1 := hb b (List.mem_cons_self b rest)
    have hrest : ∀ x ∈ rest, x ≤ 1 := fun x hx => hb x (List.mem_cons_of_mem b hx)
    show parseBinAux (digitsOf b ++ binChars rest) acc = _
    rw [digitsOf_le_one hb0]
    rcases Nat.le_one_iff_eq_zero_or_eq_one.mp hb0 with rfl | rfl
    · rw [List.singleton_append, if_neg (by decide), parseBinAux_cons_zero,
        ih hrest]
      simp [List.foldl_cons]
    · rw [List.singleton_append, if_pos rfl, parseBinAux_cons_one, ih hrest]
      simp [List.foldl_cons]

theorem binChars_ne_nil {l : List Nat} (hl : l ≠ []) (hb : ∀ b ∈ l, b ≤ 1) :
    binChars l ≠ [] := by
  match l with
  | [] => exact absurd rfl hl
  | b :: rest =>
    have hb0 : b ≤ 1 := hb b (List.mem_cons_self b rest)
    show digitsOf b ++ binChars rest ≠ []
    rw [digitsOf_le_one hb0]
    simp

/-- The `value` read of a nonempty vector of binary bits succeeds and returns
the most-significant-first interpretation of the bits. -/
theorem value_of_binary (v : BitVector) (hne : v.vlist ≠ [])
    (hb : ∀ b ∈ v.vlist, b ≤ 1) :
    v.value = some (natOfBits v.vlist) := by
  unfold BitVector.value BitVector.binstr parseBin
  obtain ⟨c, cs, hcons⟩ := List.exists_cons_of_ne_nil (binChars_ne_nil hne hb)
  rw [hcons]
  show parseBinAux (c :: cs) 0 = some (natOfBits v.vlist)
  rw [← hcons]
  exact parseBinAux_binChars v.vlist hb 0

theorem natOfBits_append_bit (l : List Nat) (d : Nat) :
    natOfBits (l ++ [d]) = 2 * natOfBits l + d := by
  unfold natOfBits
  rw [List.foldl_append]
  rfl

theorem natOfBits_reverse (l : List Nat) :
    natOfBits l.reverse = Nat.ofDigits 2 l := by
  induction l with
  | nil => simp [natOfBits, Nat.ofDigits_nil]
  | cons d rest ih =>
    rw [List.reverse_cons, natOfBits_append_bit, ih, Nat.ofDigits_cons]
    ring

/-- Under downto, a slice of a binary vector with in-range bounds passes the
constructor validation and returns the reflected take-drop of the underlying
list, with the orientation flag carried over. -/
theorem slice_downto_ok (v : BitVector) (hd : v.downto = true)
    (hb : ∀ b ∈ v.vlist, b ≤ 1) (hi lo : Int) (h0 : 0 ≤ lo) (hlo : lo ≤ hi)
    (hhi : hi < (v.vlist.length : Int)) :
    v.slice hi lo =
      Except.ok
        ⟨(v.vlist.take (v.vlist.length - lo.toNat)).drop
          (v.vlist.length - hi.toNat - 1), v.downto⟩ := by
  unfold BitVector.slice
  rw [hd]
  simp only [if_true]
  have e1 : pyIdx v.vlist.length ((v.length : Int) - hi - 1) =
      v.vlist.length - hi.toNat - 1 := by
    unfold pyIdx BitVector.length
    split <;> omega
  have e2 : pyIdx v.vlist.length
      (((v.length : Int) - hi - 1) + (hi - lo + 1)) =
      v.vlist.length - lo.toNat := by
    unfold pyIdx BitVector.length
    split <;> omega
  have hps : pySlice v.vlist ((v.length : Int) - hi - 1)
      (((v.length : Int) - hi - 1) + (hi - lo + 1)) =
      (v.vlist.take (v.vlist.length - lo.toNat)).drop
        (v.vlist.length - hi.toNat - 1) := by
    unfold pySlice
    rw [e1, e2]
  rw [hps]
  unfold BitVector.ofList
  rw [if_pos]
  intro b hbm
  have hble := hb b (List.mem_of_mem_take (List.mem_of_mem_drop hbm))
  omega

/-- An in-range downto slice of a binary vector is constructed without error
and its value read succeeds. -/
theorem slice_value_some (v : BitVector) (hd : v.downto = true)
    (hb : ∀ b ∈ v.vlist, b ≤ 1) (hi lo : Int) (h0 : 0 ≤ lo) (hlo : lo ≤ hi)
    (hhi : hi < (v.vlist.length : Int)) :
    ∃ w m, v.slice hi lo = Except.ok w ∧ w.value = some m := by
  have hl := slice_downto_ok v hd hb hi lo h0 hlo hhi
  have hne2 : (v.vlist.take (v.vlist.length - lo.toNat)).drop
      (v.vlist.length - hi.toNat - 1) ≠ [] := by
    apply List.length_pos.mp
    rw [List.length_drop, List.length_take]
    omega
  have hb2 : ∀ b ∈ (v.vlist.take (v.vlist.length - lo.toNat)).drop
      (v.vlist.length - hi.toNat - 1), b ≤ 1 :=
    fun b hbmem => hb b (List.mem_of_mem_take (List.mem_of_mem_drop hbmem))
  exact ⟨_, _, hl, value_of_binary _ hne2 hb2⟩

/-- C4 (code bug): the `BitVector` constructor validates every initial bit and
`validate` rejects 2, but `append` stores its argument without calling
`validate`, so appending the non-bit value 2 succeeds and puts 2 into the
vector instead of failing. -/
theorem c4_append_accepts_invalid_bit :
    BitVector.ofList [2] true = Except.error PyError.valueError ∧
    BitVector.validate 2 = Except.error PyError.valueError ∧
    BitVector.append ⟨[], true⟩ 2 = ⟨[2], true⟩ :=
  ⟨rfl, rfl, rfl⟩

/-- C5 counterexample: on the one-bit vector, requesting the slice 5 down to 0
is out of range (5 exceeds length - 1 = 0) yet the call returns the clamped
one-bit vector instead of failing with a range error. -/
theorem c5_slice_out_of_range_returns :
    BitVector.slice ⟨[0], true⟩ 5 0 = Except.ok ⟨[0], true⟩ := rfl

/-- C5 (amended): `slice` performs no range checking — out-of-range or
inverted ranges are clamped by Python slice semantics rather than raising a
range error; the only failure it can raise is the constructor's validation
error when the selected sublist holds a non-bit element.  On a downto vector
of binary bits, every valid range (low ≤ high ≤ length - 1) yields a new
vector of length high - low + 1 with the orientation flag preserved. -/
theorem c5_slice_length (v : BitVector) (hi lo : Nat) (hd : v.downto = true)
    (hb : ∀ b ∈ v.vlist, b ≤ 1) (hlo : lo ≤ hi) (hhi : hi < v.length) :
    (∃ w, v.slice ↑hi ↑lo = Except.ok w ∧ w.length = hi - lo + 1 ∧
      w.downto = v.downto) ∧
    BitVector.slice ⟨[2], true⟩ 0 0 = Except.error PyError.valueError := by
  unfold BitVector.length at hhi
  have hl := slice_downto_ok v hd hb hi lo (by omega)
    (by exact_mod_cast hlo) (by exact_mod_cast hhi)
  refine ⟨⟨_, hl, ?_, rfl⟩, rfl⟩
  show ((v.vlist.take (v.vlist.length - (↑lo : Int).toNat)).drop
    (v.vlist.length - (↑hi : Int).toNat - 1)).length = hi - lo + 1
  rw [List.length_drop, List.length_take]
  omega

/-- C7: `from_int` round-trips through `value`, and 0 encodes as the single
zero bit. -/
theorem c7_from_int_value_roundtrip (n : Nat) :
    (BitVector.from_int n).value = some n ∧
    BitVector.from_int 0 = ⟨[0], true⟩ := by
  refine ⟨?_, rfl⟩
  unfold BitVector.from_int
  by_cases h : n = 0
  · subst h
    rfl
  · rw [if_neg h]
    have hne : (Nat.digits 2 n).reverse ≠ [] := by
      simp [Nat.digits_ne_nil_iff_ne_zero, h]
    have hb : ∀ b ∈ (Nat.digits 2 n).reverse, b ≤ 1 := by
      intro b hbmem
      have hlt := Nat.digits_lt_base (by norm_num) (List.mem_reverse.mp hbmem)
      omega
    rw [value_of_binary ⟨(Nat.digits 2 n).reverse, true⟩ hne hb]
    show some (natOfBits (Nat.digits 2 n).reverse) = some n
    rw [natOfBits_reverse, Nat.ofDigits_digits]

/-- C10: the `value` and `hexstr` reads fail on an empty vector, and both
succeed as soon as the vector holds at least one binary bit. -/
theorem c10_empty_vector_reads_fail (d : Bool) :
    BitVector.value ⟨[], d⟩ = none ∧ BitVector.hexstr ⟨[], d⟩ = none ∧
    ∀ l : List Nat, l ≠ [] → (∀ b ∈ l, b ≤ 1) →
      (BitVector.value ⟨l, d⟩).isSome = true ∧
      (BitVector.hexstr ⟨l, d⟩).isSome = true := by
  refine ⟨rfl, rfl, ?_⟩
  intro l hne hb
  have hv : BitVector.value ⟨l, d⟩ = some (natOfBits l) :=
    value_of_binary ⟨l, d⟩ hne hb
  constructor
  · rw [hv]
    rfl
  · unfold BitVector.hexstr
    rw [hv]
    rfl

/-- Witness for C5 at a concrete vector and range. -/
theorem c5_witness :
    (∃ w, BitVector.slice ⟨[1, 0, 1], true⟩ 2 1 = Except.ok w ∧
      w.length = 2 - 1 + 1 ∧
      w.downto = (⟨[1, 0, 1], true⟩ : BitVector).downto) ∧
    BitVector.slice ⟨[2], true⟩ 0 0 = Except.error PyError.valueError :=
  c5_slice_length ⟨[1, 0, 1], true⟩ 2 1 rfl (by decide) (by decide) (by decide)

/-- Witness for C10 at concrete vectors. -/
theorem c10_witness :
    BitVector.value ⟨[], true⟩ = none ∧
    (BitVector.value ⟨[1], true⟩).isSome = true :=
  ⟨(c10_empty_vector_reads_fail true).1,
    ((c10_empty_vector_reads_fail true).2.2 [1] (by decide) (by decide)).1⟩

/-- C2: classification dispatch of completed response frames.  The top-two-bit
start-and-transfer slice and the bits 45..40 command-index slice are named by
hypothesis together with their field values; slices are `Except`-valued
because their construction validates the sublist. -/
theorem c2_response_dispatch (v : BitVector) (prev : Nat)
    (hd : v.downto = true) (hb : ∀ b ∈ v.vlist, b ≤ 1) :
    (v.vlist.length = 48 →
      ∀ st2, v.slice 47 46 = Except.ok st2 → st2.value = some 0 →
      ∀ cv c, v.slice 45 40 = Except.ok cv → cv.value = some c →
        ((c = 63 → ∃ raw arg crc n,
            decodeFrame 48 prev v = Except.ok (Frame.r3 raw 0 c arg crc, n)) ∧
         (c = 3 → ∃ raw rca cs crc n,
            decodeFrame 48 prev v = Except.ok (Frame.r6 raw 0 c rca cs crc, n)) ∧
         (c ≠ 63 → c ≠ 3 → ∃ raw arg crc n,
            decodeFrame 48 prev v = Except.ok (Frame.r1 raw 0 c arg crc, n)))) ∧
    (v.vlist.length = 136 →
      ∀ st2, v.slice 135 134 = Except.ok st2 → st2.value = some 0 →
      ∃ raw ci cid n,
        decodeFrame 136 prev v = Except.ok (Frame.r2 raw 0 ci cid, n)) := by
  constructor
  · intro hlen st2 hstart hstval cv c hcv hc
    have hne : v.vlist ≠ [] := by
      intro h0
      rw [h0] at hlen
      simp at hlen
    have hvv := value_of_binary v hne hb
    have e1 : ((v.length : Int) - 1) = 47 := by
      unfold BitVector.length
      rw [hlen]
      norm_num
    have e2 : ((v.length : Int) - 2) = 46 := by
      unfold BitVector.length
      rw [hlen]
      norm_num
    obtain ⟨wa, ma, hwa, hma⟩ := slice_value_some v hd hb 39 8 (by norm_num)
      (by norm_num) (by rw [hlen]; norm_num)
    obtain ⟨wc, mc, hwc, hmc⟩ := slice_value_some v hd hb 7 0 (by norm_num)
      (by norm_num) (by rw [hlen]; norm_num)
    obtain ⟨wr, mr, hwr, hmr⟩ := slice_value_some v hd hb 39 24 (by norm_num)
      (by norm_num) (by rw [hlen]; norm_num)
    obtain ⟨ws, ms, hws, hms⟩ := slice_value_some v hd hb 23 8 (by norm_num)
      (by norm_num) (by rw [hlen]; norm_num)
    refine ⟨?_, ?_, ?_⟩
    · intro hc63
      subst hc63
      refine ⟨natOfBits v.vlist, ma, mc, prev, ?_⟩
      unfold decodeFrame
      rw [e1, e2, hstart]
      simp [hstval, hcv, hc, hvv, hwa, hma, hwc, hmc]
    · intro hc3
      subst hc3
      refine ⟨natOfBits v.vlist, mr, ms, mc, prev, ?_⟩
      unfold decodeFrame
      rw [e1, e2, hstart]
      simp [hstval, hcv, hc, hvv, hwa, hwc, hwr, hmr, hws, hms, hmc]
    · intro hc63 hc3
      refine ⟨natOfBits v.vlist, ma, mc, prev, ?_⟩
      unfold decodeFrame
      rw [e1, e2, hstart]
      simp [hstval, hcv, hc, hvv, hwa, hma, hwc, hmc, hc63, hc3]
  · intro hlen st2 hstart hstval
    have hne : v.vlist ≠ [] := by
      intro h0
      rw [h0] at hlen
      simp at hlen
    have hvv := value_of_binary v hne hb
    have e1 : ((v.length : Int) - 1) = 135 := by
      unfold BitVector.length
      rw [hlen]
      norm_num
    have e2 : ((v.length : Int) - 2) = 134 := by
      unfold BitVector.length
      rw [hlen]
      norm_num
    obtain ⟨wi, mi, hwi, hmi⟩ := slice_value_some v hd hb 133 128 (by norm_num)
      (by norm_num) (by rw [hlen]; norm_num)
    obtain ⟨wd, md, hwd, hmd⟩ := slice_value_some v hd hb 127 0 (by norm_num)
      (by norm_num) (by rw [hlen]; norm_num)
    refine ⟨natOfBits v.vlist, mi, md, 0, ?_⟩
    unfold decodeFrame
    rw [e1, e2, hstart]
    simp [hstval, hvv, hstart, hwi, hmi, hwd, hmd]


/-- Witness for C2 at a concrete 48-bit response frame with command index
field 63. -/
theorem c2_witness :
    ∃ raw arg crc n,
      decodeFrame 48 0 ⟨[0, 0, 1, 1, 1, 1, 1, 1] ++ List.replicate 40 0, true⟩ =
        Except.ok (Frame.r3 raw 0 63 arg crc, n) :=
  (((c2_response_dispatch ⟨[0, 0, 1, 1, 1, 1, 1, 1] ++ List.replicate 40 0, true⟩
      0 rfl (by decide)).1 (by decide)
      ⟨[0, 0], true⟩ (by rfl) (by decide)
      ⟨[1, 1, 1, 1, 1, 1], true⟩ 63 (by rfl) (by decide)).1) rfl


/-- How `decodeFrame` updates `current_cmd_idx`: a command frame stores its
command index field, a short response leaves it untouched (and only arises
when the frame length is not 136), and an R2 response resets it to 0. -/
theorem decodeFrame_newIdx (mb prev : Nat) (v : BitVector) (f : Frame) (n : Nat)
    (h : decodeFrame mb prev v = Except.ok (f, n)) :
    (∀ a raw st i arg crc, f = Frame.command a raw st i arg crc → n = i) ∧
    (∀ raw st i arg crc, f = Frame.r1 raw st i arg crc → n = prev ∧ mb ≠ 136) ∧
    (∀ raw st i arg crc, f = Frame.r3 raw st i arg crc → n = prev ∧ mb ≠ 136) ∧
    (∀ raw st i rca cs crc, f = Frame.r6 raw st i rca cs crc → n = prev ∧ mb ≠ 136) ∧
    (∀ raw st i cid, f = Frame.r2 raw st i cid → n = 0) := by
  unfold decodeFrame at h
  repeat' split at h
  all_goals simp at h
  all_goals (obtain ⟨hf, hn⟩ := h; subst hn; subst hf; simp_all)


/-- Complete case analysis of one successful loop iteration: in idle the
iteration emits nothing and either arms a fresh acquisition or stays idle; in
acquire the sample may latch one bit, and the iteration classifies the
accumulated vector exactly when the bit counter reaches the target length. -/
theorem step_cases (r : PRat) (s : DState) (x : Sample) (s' : DState)
    (out : Option Frame) (h : step r s x = Except.ok (s', out)) :
    (s.currentState = States.idle ∧ out = none ∧
      s'.currentCmdIdx = s.currentCmdIdx ∧
      ((s'.currentState = States.acquire ∧ s'.bitCount = 0 ∧
          s'.vector = ⟨[], true⟩) ∨
       (s'.currentState = States.idle ∧ s'.bitCount = 0 ∧
          s'.vector = s.vector))) ∨
    (s.currentState = States.acquire ∧
      s'.vector = (if x.clk = 1 ∧ s.lastClk = 0 then s.vector.append x.cmd
        else s.vector) ∧
      s'.bitCount = (if x.clk = 1 ∧ s.lastClk = 0 then s.bitCount + 1
        else s.bitCount) ∧
      ((s'.bitCount ≠ target s.currentCmdIdx ∧ out = none ∧
          s'.currentCmdIdx = s.currentCmdIdx ∧
          s'.currentState = States.acquire) ∨
       (s'.bitCount = target s.currentCmdIdx ∧
          s'.currentState = States.idle ∧
          ∃ f, out = some f ∧
            decodeFrame (target s.currentCmdIdx) s.currentCmdIdx s'.vector =
              Except.ok (f, s'.currentCmdIdx)))) := by
  unfold step at h
  simp only [Nat.zero_eq] at h
  repeat' split at h
  all_goals simp at h
  all_goals obtain ⟨hs', hout⟩ := h
  all_goals subst hout
  all_goals subst hs'
  all_goals simp_all
  all_goals
    exact ⟨by rw [if_neg (by tauto)], by rw [if_neg (by tauto)]⟩


/-- The target frame length is always one of the two legal lengths. -/
theorem target_eq_48_or_136 (n : Nat) : target n = 48 ∨ target n = 136 := by
  unfold target
  split <;> simp

/-- C9: a successful iteration changes the running previous-command-index only
when it emits a frame; short responses leave it unchanged, a command frame
stores its own command index field, and an R2 response resets it to 0. -/
theorem c9_prev_index_updates (r : PRat) (s : DState) (x : Sample) (s' : DState)
    (out : Option Frame) (h : step r s x = Except.ok (s', out)) :
    (out = none → s'.currentCmdIdx = s.currentCmdIdx) ∧
    (∀ raw st i arg crc, out = some (Frame.r1 raw st i arg crc) →
        s'.currentCmdIdx = s.currentCmdIdx) ∧
    (∀ raw st i arg crc, out = some (Frame.r3 raw st i arg crc) →
        s'.currentCmdIdx = s.currentCmdIdx) ∧
    (∀ raw st i rca cs crc, out = some (Frame.r6 raw st i rca cs crc) →
        s'.currentCmdIdx = s.currentCmdIdx) ∧
    (∀ a raw st i arg crc, out = some (Frame.command a raw st i arg crc) →
        s'.currentCmdIdx = i) ∧
    (∀ raw st i cid, out = some (Frame.r2 raw st i cid) →
        s'.currentCmdIdx = 0) := by
  rcases step_cases r s x s' out h with
    ⟨hst, hnone, hidx, hrest⟩ |
    ⟨hst, hvec, hbc, ⟨hne, hnone, hidx, hstate⟩ | ⟨hbc2, hstate, f, hout, hdec⟩⟩
  · subst hnone
    exact ⟨fun _ => hidx, by simp, by simp, by simp, by simp, by simp⟩
  · subst hnone
    exact ⟨fun _ => hidx, by simp, by simp, by simp, by simp, by simp⟩
  · subst hout
    obtain ⟨hcmd, hr1, hr3, hr6, hr2⟩ :=
      decodeFrame_newIdx (target s.currentCmdIdx) s.currentCmdIdx s'.vector f
        s'.currentCmdIdx hdec
    refine ⟨by simp, ?_, ?_, ?_, ?_, ?_⟩
    · intro raw st i arg crc heq
      exact (hr1 raw st i arg crc (Option.some.inj heq)).1
    · intro raw st i arg crc heq
      exact (hr3 raw st i arg crc (Option.some.inj heq)).1
    · intro raw st i rca cs crc heq
      exact (hr6 raw st i rca cs crc (Option.some.inj heq)).1
    · intro a raw st i arg crc heq
      exact hcmd a raw st i arg crc (Option.some.inj heq)
    · intro raw st i cid heq
      exact hr2 raw st i cid (Option.some.inj heq)

/-- C1: frame length selection.  After a command frame with index 2, 9 or 10
the next target length is 136, after any other command 48; after any response
frame the next target length is 48; while acquiring, a frame is classified
exactly when the (possibly incremented) bit counter reaches the target; and an
iteration that emits nothing never changes the target. -/
theorem c1_frame_length_selection (r : PRat) (s : DState) (x : Sample)
    (s' : DState) (out : Option Frame)
    (h : step r s x = Except.ok (s', out)) :
    (∀ a raw st i arg crc, out = some (Frame.command a raw st i arg crc) →
        s'.currentCmdIdx = i ∧
        target s'.currentCmdIdx =
          (if i = 2 ∨ i = 9 ∨ i = 10 then 136 else 48)) ∧
    (∀ f, out = some f → f.isResponse = true →
        target s'.currentCmdIdx = 48) ∧
    (s.currentState = States.acquire →
      ((∃ f, out = some f) ↔
        (if x.clk = 1 ∧ s.lastClk = 0 then s.bitCount + 1 else s.bitCount) =
          target s.currentCmdIdx)) ∧
    (s.currentState = States.idle → out = none) ∧
    (out = none → target s'.currentCmdIdx = target s.currentCmdIdx) := by
  rcases step_cases r s x s' out h with
    ⟨hst, hnone, hidx, hrest⟩ |
    ⟨hst, hvec, hbc, ⟨hne, hnone, hidx, hstate⟩ | ⟨hbc2, hstate, f, hout, hdec⟩⟩
  · subst hnone
    refine ⟨by simp, by simp, ?_, fun _ => rfl, fun _ => by rw [hidx]⟩
    intro hacq
    exact absurd (hst.symm.trans hacq) (by decide)
  · subst hnone
    refine ⟨by simp, by simp, ?_, ?_, fun _ => by rw [hidx]⟩
    · intro _
      constructor
      · rintro ⟨f, hf⟩
        cases hf
      · intro hb
        exact absurd (hbc.trans hb) hne
    · intro hidle
      exact absurd (hst.symm.trans hidle) (by decide)
  · subst hout
    obtain ⟨hcmd, hr1, hr3, hr6, hr2⟩ :=
      decodeFrame_newIdx (target s.currentCmdIdx) s.currentCmdIdx s'.vector f
        s'.currentCmdIdx hdec
    refine ⟨?_, ?_, ?_, ?_, ?_⟩
    · intro a raw st i arg crc heq
      have hi := hcmd a raw st i arg crc (Option.some.inj heq)
      refine ⟨hi, ?_⟩
      rw [hi]
      rfl
    · intro f' hout' hresp
      have hf' : f = f' := Option.some.inj hout'
      subst hf'
      cases f with
      | command a raw st i arg crc => simp [Frame.isResponse] at hresp
      | r1 raw st i arg crc =>
        obtain ⟨hn, hmb⟩ := hr1 raw st i arg crc rfl
        rw [hn]
        rcases target_eq_48_or_136 s.currentCmdIdx with h48 | h136
        · exact h48
        · exact absurd h136 hmb
      | r3 raw st i arg crc =>
        obtain ⟨hn, hmb⟩ := hr3 raw st i arg crc rfl
        rw [hn]
        rcases target_eq_48_or_136 s.currentCmdIdx with h48 | h136
        · exact h48
        · exact absurd h136 hmb
      | r6 raw st i rca cs crc =>
        obtain ⟨hn, hmb⟩ := hr6 raw st i rca cs crc rfl
        rw [hn]
        rcases target_eq_48_or_136 s.currentCmdIdx with h48 | h136
        · exact h48
        · exact absurd h136 hmb
      | r2 raw st i cid =>
        rw [hr2 raw st i cid rfl]
        rfl
    · intro _
      constructor
      · intro _
        exact hbc.symm.trans hbc2
      · intro _
        exact ⟨f, rfl⟩
    · intro hidle
      exact absurd (hst.symm.trans hidle) (by decide)
    · intro hnone
      cases hnone

/-- C8: whenever the decoder is acquiring, the bit counter equals the length
of the accumulator: both are zeroed on the idle-to-acquire transition,
incremented together on a rising clock edge, and therefore the vector that
reaches classification has exactly the target length of 48 or 136 bits. -/
theorem c8_bitcount_matches_accumulator (r : PRat) (s : DState) (x : Sample)
    (s' : DState) (out : Option Frame)
    (h : step r s x = Except.ok (s', out)) :
    (initState.currentState = States.acquire →
      initState.bitCount = initState.vector.vlist.length) ∧
    ((s.currentState = States.acquire → s.bitCount = s.vector.vlist.length) →
      s'.currentState = States.acquire →
      s'.bitCount = s'.vector.vlist.length) ∧
    (s.currentState = States.idle → s'.currentState = States.acquire →
      s'.bitCount = 0 ∧ s'.vector.vlist = []) ∧
    (s.currentState = States.acquire → x.clk = 1 ∧ s.lastClk = 0 →
      s'.bitCount = s.bitCount + 1 ∧
      s'.vector.vlist.length = s.vector.vlist.length + 1) ∧
    (s.currentState = States.acquire → s.bitCount = s.vector.vlist.length →
      ∀ f, out = some f →
        s'.vector.vlist.length = target s.currentCmdIdx ∧
        (target s.currentCmdIdx = 48 ∨ target s.currentCmdIdx = 136)) := by
  rcases step_cases r s x s' out h with
    ⟨hst, hnone, hidx, ⟨hacq, hb0, hv0⟩ | ⟨hidle, hb0, hv0⟩⟩ |
    ⟨hst, hvec, hbc, ⟨hne, hnone, hidx, hstate⟩ | ⟨hbc2, hstate, f, hout, hdec⟩⟩
  · refine ⟨by decide, ?_, ?_, ?_, ?_⟩
    · intro _ _
      rw [hb0, hv0]
      rfl
    · intro _ _
      exact ⟨hb0, by rw [hv0]⟩
    · intro hacq2 _
      exact absurd (hst.symm.trans hacq2) (by decide)
    · intro hacq2 _
      exact absurd (hst.symm.trans hacq2) (by decide)
  · refine ⟨by decide, ?_, ?_, ?_, ?_⟩
    · intro _ hacq2
      exact absurd (hidle.symm.trans hacq2) (by decide)
    · intro _ hacq2
      exact absurd (hidle.symm.trans hacq2) (by decide)
    · intro hacq2 _
      exact absurd (hst.symm.trans hacq2) (by decide)
    · intro hacq2 _
      exact absurd (hst.symm.trans hacq2) (by decide)
  · refine ⟨by decide, ?_, ?_, ?_, ?_⟩
    · intro hinv _
      by_cases hr : x.clk = 1 ∧ s.lastClk = 0
      · rw [if_pos hr] at hvec hbc
        rw [hbc, hvec]
        simp [BitVector.append, hinv hst]
      · rw [if_neg hr] at hvec hbc
        rw [hbc, hvec]
        exact hinv hst
    · intro hidle2 _
      exact absurd (hst.symm.trans hidle2) (by decide)
    · intro _ hr
      rw [if_pos hr] at hvec hbc
      refine ⟨hbc, ?_⟩
      rw [hvec]
      simp [BitVector.append]
    · intro _ _ f hf
      rw [hnone] at hf
      cases hf
  · refine ⟨by decide, ?_, ?_, ?_, ?_⟩
    · intro _ hacq2
      exact absurd (hstate.symm.trans hacq2) (by decide)
    · intro hidle2 _
      exact absurd (hst.symm.trans hidle2) (by decide)
    · intro _ hr
      rw [if_pos hr] at hvec hbc
      refine ⟨hbc, ?_⟩
      rw [hvec]
      simp [BitVector.append]
    · intro _ hinv f2 hf
      refine ⟨?_, target_eq_48_or_136 s.currentCmdIdx⟩
      by_cases hr : x.clk = 1 ∧ s.lastClk = 0
      · rw [if_pos hr] at hvec hbc
        rw [hvec]
        have : (s.vector.append x.cmd).vlist.length = s.vector.vlist.length + 1 := by
          simp [BitVector.append]
        rw [this, ← hinv, ← hbc]
        exact hbc2
      · rw [if_neg hr] at hvec hbc
        rw [hvec, ← hinv, ← hbc]
        exact hbc2


/-- C3: the end-to-end scenario run emits exactly one command frame, CMD6 with
argument 0, and finishes back in the idle state without raising. -/
theorem c3_end_to_end_scenario :
    (run ⟨10, 1⟩ c3Samples).map (fun p => (p.1.currentState, p.2)) =
      Except.ok
        (States.idle, [Frame.command false (70 * 2 ^ 40 + 1) 1 6 0 1]) := by
  rfl

/-- C6 counterexample: ending the stream after 20 acquired bits produces no
report at all — the run ends with zero emitted events, so in particular no
truncation diagnostic is ever reported. -/
theorem c6_no_truncation_diagnostic :
    (run ⟨10, 1⟩ c6Samples).map (fun p => p.2.length) = Except.ok 0 := by
  rfl

/-- C6 (amended): when the stream ends while acquiring, the decoder simply
stops in the acquire state: it emits no frame for the partial acquisition and
produces no end-of-stream diagnostic of any kind. -/
theorem c6_truncated_stream_is_silent :
    (run ⟨10, 1⟩ c6Samples).map (fun p => (p.1.currentState, p.2)) =
      Except.ok (States.acquire, ([] : List Frame)) := by
  rfl

/-- Witness for C1 at a concrete no-edge idle iteration. -/
theorem c1_witness :
    (∀ a raw st i arg crc,
        (none : Option Frame) = some (Frame.command a raw st i arg crc) →
        sIdleStep.currentCmdIdx = i ∧
        target sIdleStep.currentCmdIdx =
          (if i = 2 ∨ i = 9 ∨ i = 10 then 136 else 48)) ∧
    (∀ f, (none : Option Frame) = some f → f.isResponse = true →
        target sIdleStep.currentCmdIdx = 48) ∧
    (initState.currentState = States.acquire →
      ((∃ f, (none : Option Frame) = some f) ↔
        (if idleSample.clk = 1 ∧ initState.lastClk = 0 then
            initState.bitCount + 1
          else initState.bitCount) = target initState.currentCmdIdx)) ∧
    (initState.currentState = States.idle → (none : Option Frame) = none) ∧
    ((none : Option Frame) = none →
      target sIdleStep.currentCmdIdx = target initState.currentCmdIdx) :=
  c1_frame_length_selection ⟨10, 1⟩ initState idleSample sIdleStep none (by rfl)

/-- Witness for C8 at a concrete no-edge idle iteration. -/
theorem c8_witness :
    (initState.currentState = States.acquire →
      initState.bitCount = initState.vector.vlist.length) ∧
    ((initState.currentState = States.acquire →
        initState.bitCount = initState.vector.vlist.length) →
      sIdleStep.currentState = States.acquire →
      sIdleStep.bitCount = sIdleStep.vector.vlist.length) ∧
    (initState.currentState = States.idle →
      sIdleStep.currentState = States.acquire →
      sIdleStep.bitCount = 0 ∧ sIdleStep.vector.vlist = []) ∧
    (initState.currentState = States.acquire →
      idleSample.clk = 1 ∧ initState.lastClk = 0 →
      sIdleStep.bitCount = initState.bitCount + 1 ∧
      sIdleStep.vector.vlist.length = initState.vector.vlist.length + 1) ∧
    (initState.currentState = States.acquire →
      initState.bitCount = initState.vector.vlist.length →
      ∀ f, (none : Option Frame) = some f →
        sIdleStep.vector.vlist.length = target initState.currentCmdIdx ∧
        (target initState.currentCmdIdx = 48 ∨
          target initState.currentCmdIdx = 136)) :=
  c8_bitcount_matches_accumulator ⟨10, 1⟩ initState idleSample sIdleStep none
    (by rfl)

/-- Witness for C9 at a concrete no-edge idle iteration. -/
theorem c9_witness :
    ((none : Option Frame) = none →
      sIdleStep.currentCmdIdx = initState.currentCmdIdx) ∧
    (∀ raw st i arg crc,
        (none : Option Frame) = some (Frame.r1 raw st i arg crc) →
        sIdleStep.currentCmdIdx = initState.currentCmdIdx) ∧
    (∀ raw st i arg crc,
        (none : Option Frame) = some (Frame.r3 raw st i arg crc) →
        sIdleStep.currentCmdIdx = initState.currentCmdIdx) ∧
    (∀ raw st i rca cs crc,
        (none : Option Frame) = some (Frame.r6 raw st i rca cs crc) →
        sIdleStep.currentCmdIdx = initState.currentCmdIdx) ∧
    (∀ a raw st i arg crc,
        (none : Option Frame) = some (Frame.command a raw st i arg crc) →
        sIdleStep.currentCmdIdx = i) ∧
    (∀ raw st i cid, (none : Option Frame) = some (Frame.r2 raw st i cid) →
        sIdleStep.currentCmdIdx = 0) :=
  c9_prev_index_updates ⟨10, 1⟩ initState idleSample sIdleStep none (by rfl)

end SDCardReader
